import Mathlib

/-!
Shallow embedding of the wheel-strategy suggestion API
(`src/app/api/suggestions/route.ts` of the PassiveIncome repository, in the
revision that carries the input validator and the in-memory result cache).

Conventions of the embedding:
* JavaScript numbers are modelled as `ℚ`.  All values the route manipulates
  (prices, premiums, percentages) are finite decimals, and the route's own
  comparisons are exact, so rationals embed them faithfully.  `NaN` has no
  counterpart; a raw request field that coerces to a non-finite number is
  modelled by the dedicated constructor `JSNum.nonfinite`.
* `Math.round` rounds half towards +infinity, i.e. `⌊x + 1/2⌋`.
  `x.toFixed(2)` followed by `parseFloat` on the route's (non-negative)
  values rounds half up to two decimals, i.e. `jsRound (x * 100) / 100`.
* Calendar arithmetic (`new Date()`, `toISOString`) is environment input:
  the model receives the ISO strings and the millisecond differences that
  the route would read off the clock, and computes `daysToExpiration`
  from them exactly as the route does.
* The Yahoo gateway is the external collaborator.  A per-symbol
  interaction is an oracle value of type `Fetch`: either the whole `try`
  block raised (with the optional close price that the 7-day history
  recovery of the `catch` block obtained), or the quote succeeded and the
  already date-filtered option chains are supplied.
* `Math.random()` is an oracle `ℕ → ℚ`; the n-th value drawn by the mock
  generator is `rand n` (a counter is threaded in draw order).
-/

namespace PassiveIncome

/-- JS `Math.round`: round half towards positive infinity. -/
def jsRound (x : ℚ) : ℤ := ⌊x + 1/2⌋

/-- JS `parseFloat(x.toFixed(2))` for the route's non-negative values:
round half up to two decimal places. -/
def round2 (x : ℚ) : ℚ := (jsRound (x * 100) : ℚ) / 100

/-- `Math.round(strike * 2) / 2`: round to the nearest 0.5. -/
def roundHalf (x : ℚ) : ℚ := (jsRound (x * 2) : ℚ) / 2

/-- The suggestion record pushed by the route (`StockSuggestion`). -/
inductive OptionKind
  | PUT
  | CALL
  | COVERED_CALL
deriving DecidableEq, Repr

structure StockSuggestion where
  symbol : String
  currentPrice : ℚ
  strikePrice : ℚ
  expirationDate : String
  daysToExpiration : ℤ
  premium : ℚ
  roi : ℚ
  annualizedRoi : ℚ
  capitalRequired : ℚ
  breakEven : ℚ
  contract : String
  type : OptionKind
deriving DecidableEq, Repr

/-! ## Input validator -/

/-- A raw numeric request field after JS number coercion: either a finite
number or a non-finite result (`NaN`/`±Infinity`). -/
inductive JSNum
  | fin (q : ℚ)
  | nonfinite
deriving DecidableEq, Repr

/-- `clampNumber`: `null` for non-finite input, otherwise
`Math.min(max, Math.max(min, n))`. -/
def clampNumber (v : JSNum) (lo hi : ℚ) : Option ℚ :=
  match v with
  | .fin n => some (min hi (max lo n))
  | .nonfinite => none

/-- `Array.from(new Set(xs))`: de-duplicate keeping first occurrences. -/
def dedupFirst (l : List String) : List String :=
  l.foldl (fun acc s => if s ∈ acc then acc else acc ++ [s]) []

/-- JS `s.trim()` on a character list. -/
def trimChars (l : List Char) : List Char :=
  ((l.dropWhile Char.isWhitespace).reverse.dropWhile Char.isWhitespace).reverse

/-- `parseSymbols`: split the whitelist on commas, trim and upper-case each
part, drop empties, de-duplicate preserving order. -/
def splitComma : List Char → List (List Char)
  | [] => [[]]
  | c :: cs =>
    let r := splitComma cs
    if c = ',' then [] :: r
    else
      match r with
      | [] => [[c]]
      | h :: t => (c :: h) :: t

def parseSymbols (w : String) : List String :=
  dedupFirst
    (((splitComma w.toList).map
        (fun cs => String.mk ((trimChars cs).map Char.toUpper))).filter
      (fun s => s ≠ ""))

structure Params where
  capital : ℚ
  desiredRoi : ℚ
  expirationWeeks : ℚ
  symbols : List String
deriving DecidableEq, Repr

structure ErrorResponse where
  error : String
  details : Option String
deriving DecidableEq, Repr

structure RawBody where
  capital : JSNum
  desiredRoi : JSNum
  expirationWeeks : JSNum
  whitelist : String
deriving DecidableEq, Repr

/-- The validation prefix of `POST`: clamp the three numeric fields
(rejecting non-finite values with HTTP 400), then check the parsed symbol
list for emptiness and the 20-ticker limit. -/
def validateRequest (b : RawBody) : Except (ℕ × ErrorResponse) Params :=
  match clampNumber b.capital 500 5000000,
        clampNumber b.desiredRoi 0 50,
        clampNumber b.expirationWeeks 1 12 with
  | some c, some r, some w =>
    let symbols := parseSymbols b.whitelist
    if symbols.length = 0 then
      .error (400, ⟨"Invalid input",
        some "Please provide at least one ticker in the watchlist."⟩)
    else if 20 < symbols.length then
      .error (400, ⟨"Too many tickers",
        some "Please limit the watchlist to 20 tickers per request."⟩)
    else
      .ok ⟨c, r, w, symbols⟩
  | _, _, _ =>
    .error (400, ⟨"Invalid input",
      some "capital, desiredRoi, and expirationWeeks must be numbers within allowed ranges."⟩)

/-! ## Synthetic suggestion generator (`generateMockSuggestions`) -/

/-- The static per-symbol price table of the generator. -/
def stockMap : String → Option ℚ
  | "PLTR" => some 170
  | "SOFI" => some 15
  | "AMD" => some 200
  | "TSLA" => some 350
  | "NVDA" => some 140
  | "AAPL" => some 220
  | "GOOGL" => some 180
  | "MSFT" => some 450
  | "AMZN" => some 200
  | _ => none

/-- JS `referencePrice || stockMap[symbol] || 100.00` (0 is falsy). -/
def mockPrice (symbol : String) (reference : Option ℚ) : ℚ :=
  match reference with
  | some q => if q = 0 then (match stockMap symbol with
      | some m => if m = 0 then 100 else m
      | none => 100) else q
  | none =>
    match stockMap symbol with
    | some m => if m = 0 then 100 else m
    | none => 100

/-- Calendar environment: `env.dateStr i` is the ISO date string of
`today + 7 * i` days, as the generator would format it. -/
structure MockEnv where
  dateStr : ℕ → String

/-- JS template interpolation of a number; the exact decimal rendering is
immaterial to the route (only the "Mock" prefix of the contract id is ever
inspected), so the rational is rendered as `num` or `num/den`. -/
def qToStr (q : ℚ) : String :=
  (toString q.num) ++ (if q.den = 1 then "" else "/" ++ (toString q.den))

/-- One iteration of the mock put loop: the state is the accumulated
suggestions plus the index of the next `Math.random()` draw. -/
def mockPutStep (symbol : String) (capital desiredRoi price : ℚ)
    (dateStr : String) (days : ℕ) (rand : ℕ → ℚ) :
    List StockSuggestion × ℕ → ℚ → List StockSuggestion × ℕ :=
  fun st strike =>
    let cleanStrike := roundHalf strike
    if cleanStrike * 100 > capital then st
    else
      let premium := round2 (cleanStrike * (1/100 + rand st.2 * (2/100)))
      let tradeRoi := premium / cleanStrike
      let monthlyRoi := tradeRoi * (30 / (days : ℚ)) * 100
      let annualizedRoi := tradeRoi * (365 / (days : ℚ)) * 100
      if monthlyRoi ≥ desiredRoi then
        (st.1 ++ [{ symbol := symbol
                    currentPrice := price
                    strikePrice := cleanStrike
                    expirationDate := dateStr
                    daysToExpiration := (days : ℤ)
                    premium := premium
                    roi := round2 monthlyRoi
                    annualizedRoi := round2 annualizedRoi
                    capitalRequired := (jsRound (cleanStrike * 100) : ℚ)
                    breakEven := round2 (cleanStrike - premium)
                    contract := "Mock-" ++ symbol ++ "-" ++ dateStr ++ "-"
                                 ++ (qToStr cleanStrike) ++ "P"
                    type := .PUT }], st.2 + 1)
      else (st.1, st.2 + 1)

/-- One iteration of the mock covered-call loop. -/
def mockCallStep (symbol : String) (capital desiredRoi price : ℚ)
    (dateStr : String) (days : ℕ) (rand : ℕ → ℚ) :
    List StockSuggestion × ℕ → ℚ → List StockSuggestion × ℕ :=
  fun st strike =>
    let cleanStrike := roundHalf strike
    if price * 100 > capital then st
    else
      let premium := round2 (price * (1/200 + rand st.2 * (3/200)))
      let tradeRoi := premium / price
      let monthlyRoi := tradeRoi * (30 / (days : ℚ)) * 100
      let annualizedRoi := tradeRoi * (365 / (days : ℚ)) * 100
      if monthlyRoi ≥ desiredRoi then
        (st.1 ++ [{ symbol := symbol
                    currentPrice := price
                    strikePrice := cleanStrike
                    expirationDate := dateStr
                    daysToExpiration := (days : ℤ)
                    premium := premium
                    roi := round2 monthlyRoi
                    annualizedRoi := round2 annualizedRoi
                    capitalRequired := (jsRound (price * 100) : ℚ)
                    breakEven := round2 (price - premium)
                    contract := "Mock-" ++ symbol ++ "-" ++ dateStr ++ "-"
                                 ++ (qToStr cleanStrike) ++ "C"
                    type := .COVERED_CALL }], st.2 + 1)
      else (st.1, st.2 + 1)

/-- One week of the mock generator: three put strikes at 0.90/0.95/1.00 of
price, then two covered-call strikes at 1.05/1.10 of price. -/
def mockWeek (symbol : String) (capital desiredRoi price : ℚ)
    (dateStr : String) (days : ℕ) (rand : ℕ → ℚ)
    (st : List StockSuggestion × ℕ) : List StockSuggestion × ℕ :=
  let st1 := [price * (9/10), price * (95/100), price].foldl
    (mockPutStep symbol capital desiredRoi price dateStr days rand) st
  [price * (105/100), price * (110/100)].foldl
    (mockCallStep symbol capital desiredRoi price dateStr days rand) st1

/-- The week indices visited by `for (let i = 1; i <= expirationWeeks; i++)`
(after clamping, `expirationWeeks ≥ 1`, and a fractional value runs the loop
up to its floor). -/
def weekIdxs (weeks : ℚ) : List ℕ :=
  (List.range ⌊weeks⌋.toNat).map (· + 1)

/-- `generateMockSuggestions`. -/
def generateMockSuggestions (symbol : String) (capital desiredRoi weeks : ℚ)
    (reference : Option ℚ) (env : MockEnv) (rand : ℕ → ℚ) :
    List StockSuggestion :=
  let price := mockPrice symbol reference
  ((weekIdxs weeks).foldl
    (fun st i => mockWeek symbol capital desiredRoi price (env.dateStr i)
      (i * 7) rand st) ([], 0)).1

/-! ## Live screening -/

/-- One option contract of a fetched chain (the fields the route reads). -/
structure OptionContract where
  strike : ℚ
  bid : ℚ
  lastPrice : ℚ
  contractSymbol : String
deriving DecidableEq, Repr

/-- One element of `optionChain.options`. -/
structure OptionEntry where
  puts : List OptionContract
  calls : List OptionContract
deriving DecidableEq, Repr

/-- A fetched chain for one retained expiration date; `timeDiffMs` is
`date.getTime() - today.getTime()`. -/
structure DatedChain where
  dateStr : String
  timeDiffMs : ℤ
  options : List OptionEntry
deriving DecidableEq, Repr

/-- `premium = (bid && bid > 0) ? bid : lastPrice`. -/
def optionPremium (c : OptionContract) : ℚ :=
  if 0 < c.bid then c.bid else c.lastPrice

/-- `Math.ceil(timeDiff / (1000*3600*24))`. -/
def daysToExp (timeDiffMs : ℤ) : ℤ := ⌈(timeDiffMs : ℚ) / 86400000⌉

/-- Screening of one put contract (cash-secured put candidate). -/
def screenPut (symbol : String) (capital desiredRoi currentPrice : ℚ)
    (dateStr : String) (days : ℤ) (put : OptionContract) :
    Option StockSuggestion :=
  let premium := optionPremium put
  if premium ≤ 0 then none
  else if put.strike * 100 > capital then none
  else if put.strike > currentPrice * (110/100) then none
  else if days ≤ 0 then none
  else
    let tradeRoi := premium / put.strike
    let annualizedRoi := tradeRoi * (365 / (days : ℚ)) * 100
    let monthlyRoi := tradeRoi * (30 / (days : ℚ)) * 100
    if monthlyRoi ≥ desiredRoi then
      some { symbol := symbol
             currentPrice := currentPrice
             strikePrice := put.strike
             expirationDate := dateStr
             daysToExpiration := days
             premium := premium
             roi := round2 monthlyRoi
             annualizedRoi := round2 annualizedRoi
             capitalRequired := (jsRound (put.strike * 100) : ℚ)
             breakEven := round2 (put.strike - premium)
             contract := put.contractSymbol
             type := .PUT }
    else none

/-- Screening of one call contract (covered-call candidate). -/
def screenCall (symbol : String) (capital desiredRoi currentPrice : ℚ)
    (dateStr : String) (days : ℤ) (call : OptionContract) :
    Option StockSuggestion :=
  let premium := optionPremium call
  if premium ≤ 0 then none
  else if currentPrice * 100 > capital then none
  else if call.strike < currentPrice then none
  else if days ≤ 0 then none
  else
    let tradeRoi := premium / currentPrice
    let monthlyRoi := tradeRoi * (30 / (days : ℚ)) * 100
    let annualizedRoi := tradeRoi * (365 / (days : ℚ)) * 100
    if monthlyRoi ≥ desiredRoi then
      some { symbol := symbol
             currentPrice := currentPrice
             strikePrice := call.strike
             expirationDate := dateStr
             daysToExpiration := days
             premium := premium
             roi := round2 monthlyRoi
             annualizedRoi := round2 annualizedRoi
             capitalRequired := (jsRound (currentPrice * 100) : ℚ)
             breakEven := round2 (currentPrice - premium)
             contract := call.contractSymbol
             type := .COVERED_CALL }
    else none

/-- Screening of one retained expiration date: every put, then every call,
of every entry of the fetched chain. -/
def screenChain (symbol : String) (capital desiredRoi currentPrice : ℚ)
    (chain : DatedChain) : List StockSuggestion :=
  let days := daysToExp chain.timeDiffMs
  chain.options.foldl
    (fun acc entry =>
      acc ++ entry.puts.filterMap
          (screenPut symbol capital desiredRoi currentPrice chain.dateStr days)
        ++ entry.calls.filterMap
          (screenCall symbol capital desiredRoi currentPrice chain.dateStr days))
    []

/-- All retained expiration dates of one symbol. -/
def screenChains (symbol : String) (capital desiredRoi currentPrice : ℚ)
    (chains : List DatedChain) : List StockSuggestion :=
  chains.foldl
    (fun acc c => acc ++ screenChain symbol capital desiredRoi currentPrice c)
    []

/-! ## Per-symbol processing, fallback and cache -/

/-- The quote fields the route reads, 0 encoding an absent/zero (falsy)
field. -/
structure Quote where
  regularMarketPrice : ℚ
  bid : ℚ
  ask : ℚ
  regularMarketPreviousClose : ℚ
deriving DecidableEq, Repr

/-- JS `a || b` on numbers (0 falsy). -/
def jsOr (a b : ℚ) : ℚ := if a = 0 then b else a

/-- `quote.regularMarketPrice || quote.bid || quote.ask ||
quote.regularMarketPreviousClose`. -/
def quotePrice (q : Quote) : ℚ :=
  jsOr q.regularMarketPrice (jsOr q.bid (jsOr q.ask q.regularMarketPreviousClose))

/-- Oracle for one symbol's gateway interaction: `throws h` means the `try`
block raised and the 7-day history recovery of the `catch` block produced
the close price `h` (`none` when history also failed or was empty);
`quoteOk q chains` means the quote call returned `q` and the date-filtered
chain fetches returned `chains`. -/
inductive Fetch
  | throws (historyClose : Option ℚ)
  | quoteOk (q : Quote) (chains : List DatedChain)

/-- Per-symbol body of the `POST` loop, cache aside.  The boolean records
whether the synthetic generator was invoked for this symbol. -/
def processSymbol (symbol : String) (capital desiredRoi weeks : ℚ)
    (disableMock : Bool) (env : MockEnv) (rand : ℕ → ℚ) :
    Fetch → List StockSuggestion × Bool
  | .throws h =>
    if disableMock then ([], false)
    else (generateMockSuggestions symbol capital desiredRoi weeks h env rand,
          true)
  | .quoteOk q chains =>
    let cp := quotePrice q
    if cp = 0 then ([], false)
    else (screenChains symbol capital desiredRoi cp chains, false)

/-- The composite cache key `symbol|cap=...|roi=...|w=...`. -/
structure CacheKey where
  symbol : String
  capital : ℚ
  desiredRoi : ℚ
  weeks : ℚ
deriving DecidableEq, Repr

structure CacheEntry where
  ts : ℤ
  suggestions : List StockSuggestion
deriving DecidableEq, Repr

/-- The process-lifetime `Map`: an association list where `set` prepends a
shadowing binding and `get` takes the first match. -/
abbrev Cache := List (CacheKey × CacheEntry)

def CACHE_TTL_MS : ℤ := 10 * 60 * 1000

def cacheFind (c : Cache) (k : CacheKey) : Option CacheEntry :=
  (c.find? (fun p => p.1 = k)).map (fun p => p.2)

/-- The read at the top of the loop: a hit only when the entry exists and
`now - ts < CACHE_TTL_MS`. -/
def cacheFreshLookup (c : Cache) (k : CacheKey) (now : ℤ) :
    Option (List StockSuggestion) :=
  match cacheFind c k with
  | some e => if now - e.ts < CACHE_TTL_MS then some e.suggestions else none
  | none => none

def cacheSet (c : Cache) (k : CacheKey) (e : CacheEntry) : Cache :=
  (k, e) :: c

/-- One iteration of the symbol loop with the cache: fresh hit short-cuts
the symbol; otherwise the gateway path runs, a live success stores the
symbol's slice of the accumulated suggestions, a raised error falls back to
the generator (unless disabled), and a quote without usable price skips the
symbol. -/
def stepSymbol (capital desiredRoi weeks : ℚ) (disableMock : Bool)
    (env : MockEnv) (rand : ℕ → ℚ) (now : ℤ)
    (st : List StockSuggestion × Cache) (sym : String × Fetch) :
    List StockSuggestion × Cache :=
  let key : CacheKey := ⟨sym.1, capital, desiredRoi, weeks⟩
  match cacheFreshLookup st.2 key now with
  | some cachedSuggs => (st.1 ++ cachedSuggs, st.2)
  | none =>
    match sym.2 with
    | .throws h =>
      if disableMock then (st.1, st.2)
      else (st.1 ++ generateMockSuggestions sym.1 capital desiredRoi weeks h
              env rand, st.2)
    | .quoteOk q chains =>
      let cp := quotePrice q
      if cp = 0 then (st.1, st.2)
      else
        let all := st.1 ++ screenChains sym.1 capital desiredRoi cp chains
        let perSymbol := all.filter (fun s => s.symbol = sym.1)
        (all, cacheSet st.2 key ⟨now, perSymbol⟩)

/-- The whole symbol loop. -/
def processAllSymbols (capital desiredRoi weeks : ℚ) (disableMock : Bool)
    (env : MockEnv) (rand : ℕ → ℚ) (now : ℤ)
    (fetches : List (String × Fetch)) (c0 : Cache) :
    List StockSuggestion × Cache :=
  fetches.foldl (stepSymbol capital desiredRoi weeks disableMock env rand now)
    ([], c0)

/-! ## Ranking and response assembly -/

/-- `suggestions.sort((a, b) => b.roi - a.roi)`: a stable sort descending by
`roi` (JS `Array.prototype.sort` is stable). -/
def sortSuggestions (l : List StockSuggestion) : List StockSuggestion :=
  l.mergeSort (fun a b => b.roi ≤ a.roi)

/-- The synthetic-origin marker test `s.contract.startsWith('Mock')`. -/
def hasMockMarker (s : StockSuggestion) : Bool :=
  "Mock".toList.isPrefixOf s.contract.toList

/-- `forceMock` is the literal `false`, so
`source = suggestions.some(s => s.contract.startsWith('Mock')) ? 'mock' : 'live'`. -/
def computeSource (l : List StockSuggestion) : String :=
  if l.any hasMockMarker then "mock" else "live"

structure SuggestionResponse where
  suggestions : List StockSuggestion
  source : String
  debug : Option String
deriving DecidableEq, Repr

def assembleResponse (l : List StockSuggestion) : SuggestionResponse :=
  let sorted := sortSuggestions l
  ⟨sorted, computeSource sorted, none⟩

/-- The whole `POST` handler: validate, loop over the parsed symbols with
the per-symbol gateway oracle, sort and tag. -/
def handleRequest (b : RawBody) (disableMock : Bool) (env : MockEnv)
    (rand : ℕ → ℚ) (now : ℤ) (fetch : String → Fetch) (c0 : Cache) :
    Except (ℕ × ErrorResponse) (SuggestionResponse × Cache) :=
  match validateRequest b with
  | .error e => .error e
  | .ok p =>
    let r := processAllSymbols p.capital p.desiredRoi p.expirationWeeks
      disableMock env rand now (p.symbols.map (fun s => (s, fetch s))) c0
    .ok (assembleResponse r.1, r.2)

/-! ## Postconditions of the two producing paths -/

/-- What holds of every suggestion emitted by the live screening of one
symbol at reference price `cp`. -/
def LiveOut (symbol : String) (desiredRoi cp : ℚ) (s : StockSuggestion) :
    Prop :=
  s.symbol = symbol ∧ s.currentPrice = cp ∧ desiredRoi - 1/100 ≤ s.roi ∧
  ((s.type = .PUT ∧ s.breakEven = round2 (s.strikePrice - s.premium)) ∨
   (s.type = .COVERED_CALL ∧
    s.breakEven = round2 (s.currentPrice - s.premium) ∧
    s.currentPrice ≤ s.strikePrice))

/-- What holds of every suggestion emitted by the synthetic generator at
effective price `price`. -/
def MockOut (symbol : String) (desiredRoi price : ℚ) (s : StockSuggestion) :
    Prop :=
  s.symbol = symbol ∧ s.currentPrice = price ∧ desiredRoi - 1/100 ≤ s.roi ∧
  ((s.type = .PUT ∧ s.breakEven = round2 (s.strikePrice - s.premium)) ∨
   (s.type = .COVERED_CALL ∧
    s.breakEven = round2 (s.currentPrice - s.premium) ∧
    (s.strikePrice = roundHalf (price * (105/100)) ∨
     s.strikePrice = roundHalf (price * (110/100)))))

/-- The path-independent part of the emission postcondition. -/
def SymOut (symbol : String) (desiredRoi : ℚ) (s : StockSuggestion) : Prop :=
  s.symbol = symbol ∧ desiredRoi - 1/100 ≤ s.roi ∧
  (s.type = .PUT → s.breakEven = round2 (s.strikePrice - s.premium)) ∧
  (s.type = .COVERED_CALL → s.breakEven = round2 (s.currentPrice - s.premium))

/-- The cache-side invariant used for the returned-list ROI bound: every
cached slice respects the desired return recorded in its own key. -/
def CacheRoiOK (c : Cache) : Prop :=
  ∀ kv ∈ c, ∀ s ∈ kv.2.suggestions, kv.1.desiredRoi - 1/100 ≤ s.roi

/-- A concrete calendar environment for closed scenarios. -/
def env0 : MockEnv := ⟨fun _ => "d"⟩

/-- A concrete random oracle (every draw is 0.5). -/
def rand0 : ℕ → ℚ := fun _ => 1/2

def sampleChains : List DatedChain :=
  [⟨"2026-11-06", 604800000, [⟨[], [⟨105, 1, 0, "C105"⟩]⟩]⟩]

/-- The suggestion the live path emits for `sampleChains` at reference
price 100, capital 10000, desired return 0. -/
def sampleLiveCC : StockSuggestion :=
  ⟨"A", 100, 105, "2026-11-06", 7, 1, 429/100, 5214/100, 10000, 99, "C105",
   .COVERED_CALL⟩

/-- Emitting rounds the periodic return down by less than half a cent, so
the pre-rounding gate `desiredRoi ≤ m` keeps the rounded value within the
0.01 tolerance. -/
lemma sub_le_round2 {d m : ℚ} (h : d ≤ m) : d - 1/100 ≤ round2 m := by
  have h2 : (m * 100 + 1/2) - 1 < ((⌊m * 100 + 1/2⌋ : ℤ) : ℚ) :=
    Int.sub_one_lt_floor _
  show d - 1/100 ≤ ((⌊m * 100 + 1/2⌋ : ℤ) : ℚ) / 100
  linarith

/-- Rounding to the nearest 0.5 moves a value down by less than 0.25. -/
lemma lt_roundHalf (x : ℚ) : x - 1/4 < roundHalf x := by
  have h2 : (x * 2 + 1/2) - 1 < ((⌊x * 2 + 1/2⌋ : ℤ) : ℚ) :=
    Int.sub_one_lt_floor _
  show x - 1/4 < ((⌊x * 2 + 1/2⌋ : ℤ) : ℚ) / 2
  linarith

/-- Generic invariant for a left fold whose state is viewed as a list:
every element of the final view is either in the initial view or satisfies
the per-step production predicate. -/
lemma foldl_view_mem {α σ β : Type _} (step : σ → α → σ) (view : σ → List β)
    (P : β → Prop) :
    ∀ (l : List α),
      (∀ st, ∀ a ∈ l, ∀ s, s ∈ view (step st a) → s ∈ view st ∨ P s) →
      ∀ (st : σ) (s : β), s ∈ view (l.foldl step st) → s ∈ view st ∨ P s := by
  intro l
  induction l with
  | nil => intro _ st s hs; exact Or.inl hs
  | cons a t ih =>
    intro hstep st s hs
    rcases ih (fun st b hb => hstep st b (List.mem_cons_of_mem a hb))
        (step st a) s hs with h | h
    · exact hstep st a (List.mem_cons_self a t) s h
    · exact Or.inr h

lemma screenPut_some {symbol : String} {capital desiredRoi cp : ℚ}
    {dateStr : String} {days : ℤ} {put : OptionContract} {s : StockSuggestion}
    (h : screenPut symbol capital desiredRoi cp dateStr days put = some s) :
    LiveOut symbol desiredRoi cp s := by
  simp only [screenPut] at h
  split_ifs at h with h1 h2 h3 h4 h5
  · simp only [Option.some.injEq] at h
    subst h
    refine ⟨rfl, rfl, sub_le_round2 h5, Or.inl ⟨rfl, rfl⟩⟩

lemma screenCall_some {symbol : String} {capital desiredRoi cp : ℚ}
    {dateStr : String} {days : ℤ} {call : OptionContract} {s : StockSuggestion}
    (h : screenCall symbol capital desiredRoi cp dateStr days call = some s) :
    LiveOut symbol desiredRoi cp s := by
  simp only [screenCall] at h
  split_ifs at h with h1 h2 h3 h4 h5
  · simp only [Option.some.injEq] at h
    subst h
    exact ⟨rfl, rfl, sub_le_round2 h5, Or.inr ⟨rfl, rfl, not_lt.mp h3⟩⟩

/-- Specialisation of `foldl_view_mem` to folds whose state is the list
itself. -/
lemma foldl_list_mem {α β : Type _} (step : List β → α → List β)
    (P : β → Prop) :
    ∀ (l : List α),
      (∀ st, ∀ a ∈ l, ∀ s, s ∈ step st a → s ∈ st ∨ P s) →
      ∀ (st : List β) (s : β), s ∈ l.foldl step st → s ∈ st ∨ P s := by
  intro l
  induction l with
  | nil => intro _ st s hs; exact Or.inl hs
  | cons a t ih =>
    intro hstep st s hs
    rcases ih (fun st b hb => hstep st b (List.mem_cons_of_mem a hb))
        (step st a) s hs with h | h
    · exact hstep st a (List.mem_cons_self a t) s h
    · exact Or.inr h

lemma mem_screenChain {symbol : String} {capital desiredRoi cp : ℚ}
    {chain : DatedChain} {s : StockSuggestion}
    (hs : s ∈ screenChain symbol capital desiredRoi cp chain) :
    LiveOut symbol desiredRoi cp s := by
  simp only [screenChain] at hs
  have hstep : ∀ (st : List StockSuggestion), ∀ a ∈ chain.options,
      ∀ x : StockSuggestion,
      x ∈ st
        ++ a.puts.filterMap (screenPut symbol capital desiredRoi cp
            chain.dateStr (daysToExp chain.timeDiffMs))
        ++ a.calls.filterMap (screenCall symbol capital desiredRoi cp
            chain.dateStr (daysToExp chain.timeDiffMs)) →
      x ∈ st ∨ LiveOut symbol desiredRoi cp x := by
    intro st a _ x hx
    simp only [List.mem_append, List.mem_filterMap] at hx
    rcases hx with (hx | ⟨p, _, hp⟩) | ⟨c, _, hc⟩
    · exact Or.inl hx
    · exact Or.inr (screenPut_some hp)
    · exact Or.inr (screenCall_some hc)
  rcases foldl_list_mem _ (LiveOut symbol desiredRoi cp) chain.options hstep
      [] s hs with h | h
  · simp at h
  · exact h

lemma mem_screenChains {symbol : String} {capital desiredRoi cp : ℚ}
    {chains : List DatedChain} {s : StockSuggestion}
    (hs : s ∈ screenChains symbol capital desiredRoi cp chains) :
    LiveOut symbol desiredRoi cp s := by
  simp only [screenChains] at hs
  have hstep : ∀ (st : List StockSuggestion), ∀ a ∈ chains,
      ∀ x : StockSuggestion,
      x ∈ st ++ screenChain symbol capital desiredRoi cp a →
      x ∈ st ∨ LiveOut symbol desiredRoi cp x := by
    intro st a _ x hx
    rcases List.mem_append.mp hx with hx | hx
    · exact Or.inl hx
    · exact Or.inr (mem_screenChain hx)
  rcases foldl_list_mem _ (LiveOut symbol desiredRoi cp) chains hstep
      [] s hs with h | h
  · simp at h
  · exact h

lemma mockPutStep_mem {symbol : String} {capital desiredRoi price : ℚ}
    {dateStr : String} {days : ℕ} {rand : ℕ → ℚ}
    {st : List StockSuggestion × ℕ} {strike : ℚ} {s : StockSuggestion}
    (hs : s ∈ (mockPutStep symbol capital desiredRoi price dateStr days rand
      st strike).1) :
    s ∈ st.1 ∨ MockOut symbol desiredRoi price s := by
  simp only [mockPutStep] at hs
  split_ifs at hs with h1 h2
  · exact Or.inl hs
  · simp only [List.mem_append, List.mem_singleton] at hs
    rcases hs with hs | hs
    · exact Or.inl hs
    · subst hs
      exact Or.inr ⟨rfl, rfl, sub_le_round2 h2, Or.inl ⟨rfl, rfl⟩⟩
  · exact Or.inl hs

lemma mockCallStep_mem {symbol : String} {capital desiredRoi price : ℚ}
    {dateStr : String} {days : ℕ} {rand : ℕ → ℚ}
    {st : List StockSuggestion × ℕ} {strike : ℚ} {s : StockSuggestion}
    (hstrike : strike = price * (105/100) ∨ strike = price * (110/100))
    (hs : s ∈ (mockCallStep symbol capital desiredRoi price dateStr days rand
      st strike).1) :
    s ∈ st.1 ∨ MockOut symbol desiredRoi price s := by
  simp only [mockCallStep] at hs
  split_ifs at hs with h1 h2
  · exact Or.inl hs
  · simp only [List.mem_append, List.mem_singleton] at hs
    rcases hs with hs | hs
    · exact Or.inl hs
    · subst hs
      refine Or.inr ⟨rfl, rfl, sub_le_round2 h2, Or.inr ⟨rfl, rfl, ?_⟩⟩
      rcases hstrike with h | h
      · exact Or.inl (by rw [h])
      · exact Or.inr (by rw [h])
  · exact Or.inl hs

lemma mockWeek_mem {symbol : String} {capital desiredRoi price : ℚ}
    {dateStr : String} {days : ℕ} {rand : ℕ → ℚ}
    {st : List StockSuggestion × ℕ} {s : StockSuggestion}
    (hs : s ∈ (mockWeek symbol capital desiredRoi price dateStr days rand
      st).1) :
    s ∈ st.1 ∨ MockOut symbol desiredRoi price s := by
  simp only [mockWeek] at hs
  have hstepCall : ∀ st2 : List StockSuggestion × ℕ,
      ∀ a ∈ [price * (105/100), price * (110/100)],
      ∀ x : StockSuggestion,
      x ∈ (mockCallStep symbol capital desiredRoi price dateStr days rand
        st2 a).1 →
      x ∈ st2.1 ∨ MockOut symbol desiredRoi price x := by
    intro st2 a ha x hx
    simp only [List.mem_cons, List.not_mem_nil, or_false] at ha
    exact mockCallStep_mem ha hx
  have hstepPut : ∀ st2 : List StockSuggestion × ℕ,
      ∀ a ∈ [price * (9/10), price * (95/100), price],
      ∀ x : StockSuggestion,
      x ∈ (mockPutStep symbol capital desiredRoi price dateStr days rand
        st2 a).1 →
      x ∈ st2.1 ∨ MockOut symbol desiredRoi price x := by
    intro st2 a _ x hx
    exact mockPutStep_mem hx
  rcases foldl_view_mem
      (mockCallStep symbol capital desiredRoi price dateStr days rand)
      (fun st => st.1) (MockOut symbol desiredRoi price)
      [price * (105/100), price * (110/100)] hstepCall _ s hs with
    hput | h
  · exact foldl_view_mem
      (mockPutStep symbol capital desiredRoi price dateStr days rand)
      (fun st => st.1) (MockOut symbol desiredRoi price)
      [price * (9/10), price * (95/100), price] hstepPut st s hput
  · exact Or.inr h

lemma mem_generateMockSuggestions {symbol : String}
    {capital desiredRoi weeks : ℚ} {reference : Option ℚ} {env : MockEnv}
    {rand : ℕ → ℚ} {s : StockSuggestion}
    (hs : s ∈ generateMockSuggestions symbol capital desiredRoi weeks
      reference env rand) :
    MockOut symbol desiredRoi (mockPrice symbol reference) s := by
  simp only [generateMockSuggestions] at hs
  have hstep : ∀ st : List StockSuggestion × ℕ, ∀ a ∈ weekIdxs weeks,
      ∀ x : StockSuggestion,
      x ∈ (mockWeek symbol capital desiredRoi (mockPrice symbol reference)
        (env.dateStr a) (a * 7) rand st).1 →
      x ∈ st.1 ∨ MockOut symbol desiredRoi (mockPrice symbol reference) x := by
    intro st a _ x hx
    exact mockWeek_mem hx
  rcases foldl_view_mem
      (fun st i => mockWeek symbol capital desiredRoi
        (mockPrice symbol reference) (env.dateStr i) (i * 7) rand st)
      (fun st => st.1)
      (MockOut symbol desiredRoi (mockPrice symbol reference))
      (weekIdxs weeks) hstep ([], 0) s hs with h | h
  · simp at h
  · exact h

lemma liveOut_symOut {symbol : String} {d cp : ℚ} {s : StockSuggestion}
    (h : LiveOut symbol d cp s) : SymOut symbol d s := by
  obtain ⟨h1, _, h3, h4⟩ := h
  refine ⟨h1, h3, ?_, ?_⟩
  · intro ht
    rcases h4 with ⟨_, hb⟩ | ⟨hcc, _, _⟩
    · exact hb
    · rw [ht] at hcc; cases hcc
  · intro ht
    rcases h4 with ⟨hp, _⟩ | ⟨_, hb, _⟩
    · rw [ht] at hp; cases hp
    · exact hb

lemma mockOut_symOut {symbol : String} {d price : ℚ} {s : StockSuggestion}
    (h : MockOut symbol d price s) : SymOut symbol d s := by
  obtain ⟨h1, _, h3, h4⟩ := h
  refine ⟨h1, h3, ?_, ?_⟩
  · intro ht
    rcases h4 with ⟨_, hb⟩ | ⟨hcc, _, _⟩
    · exact hb
    · rw [ht] at hcc; cases hcc
  · intro ht
    rcases h4 with ⟨hp, _⟩ | ⟨_, hb, _⟩
    · rw [ht] at hp; cases hp
    · exact hb

/-- Everything a per-symbol iteration emits (either path) satisfies the
emission postcondition. -/
lemma mem_processSymbol {symbol : String} {capital desiredRoi weeks : ℚ}
    {disableMock : Bool} {env : MockEnv} {rand : ℕ → ℚ} {fetch : Fetch}
    {s : StockSuggestion}
    (hs : s ∈ (processSymbol symbol capital desiredRoi weeks disableMock env
      rand fetch).1) :
    SymOut symbol desiredRoi s := by
  cases fetch with
  | throws h =>
    simp only [processSymbol] at hs
    split_ifs at hs
    · simp at hs
    · exact mockOut_symOut (mem_generateMockSuggestions hs)
  | quoteOk q chains =>
    simp only [processSymbol] at hs
    split_ifs at hs
    · simp at hs
    · exact liveOut_symOut (mem_screenChains hs)

/-! ## Cache lemmas -/

lemma cacheFind_some {c : Cache} {k : CacheKey} {e : CacheEntry}
    (h : cacheFind c k = some e) : (k, e) ∈ c := by
  simp only [cacheFind, Option.map_eq_some'] at h
  obtain ⟨pr, hfind, he⟩ := h
  have hmem := List.mem_of_find?_eq_some hfind
  have hkey : pr.1 = k := by
    have h2 := List.find?_some hfind
    simpa using h2
  have : (k, e) = pr := by
    rcases pr with ⟨k2, e2⟩
    simp only at hkey he
    rw [hkey, he]
  rw [this]
  exact hmem

lemma cacheFreshLookup_some {c : Cache} {k : CacheKey} {now : ℤ}
    {l : List StockSuggestion} (h : cacheFreshLookup c k now = some l) :
    ∃ e : CacheEntry, (k, e) ∈ c ∧ e.suggestions = l ∧
      now - e.ts < CACHE_TTL_MS := by
  simp only [cacheFreshLookup] at h
  split at h
  · rename_i e hf
    split_ifs at h with ht
    exact ⟨e, cacheFind_some hf, Option.some_inj.mp h, ht⟩
  · cases h

/-! Branch equations for one iteration of the symbol loop. -/

lemma stepSymbol_hit {capital desiredRoi weeks : ℚ} {disableMock : Bool}
    {env : MockEnv} {rand : ℕ → ℚ} {now : ℤ}
    {acc : List StockSuggestion} {c : Cache} {symName : String} {f : Fetch}
    {cached : List StockSuggestion}
    (hlook : cacheFreshLookup c ⟨symName, capital, desiredRoi, weeks⟩ now
      = some cached) :
    stepSymbol capital desiredRoi weeks disableMock env rand now (acc, c)
      (symName, f) = (acc ++ cached, c) := by
  simp [stepSymbol, hlook]

lemma stepSymbol_throwsEq {capital desiredRoi weeks : ℚ}
    {env : MockEnv} {rand : ℕ → ℚ} {now : ℤ}
    {acc : List StockSuggestion} {c : Cache} {symName : String}
    {h : Option ℚ}
    (hlook : cacheFreshLookup c ⟨symName, capital, desiredRoi, weeks⟩ now
      = none) :
    stepSymbol capital desiredRoi weeks false env rand now (acc, c)
      (symName, .throws h) =
      (acc ++ generateMockSuggestions symName capital desiredRoi weeks h env
        rand, c) := by
  simp [stepSymbol, hlook]

lemma stepSymbol_throwsDisabledEq {capital desiredRoi weeks : ℚ}
    {env : MockEnv} {rand : ℕ → ℚ} {now : ℤ}
    {acc : List StockSuggestion} {c : Cache} {symName : String}
    {h : Option ℚ}
    (hlook : cacheFreshLookup c ⟨symName, capital, desiredRoi, weeks⟩ now
      = none) :
    stepSymbol capital desiredRoi weeks true env rand now (acc, c)
      (symName, .throws h) = (acc, c) := by
  simp [stepSymbol, hlook]

lemma stepSymbol_noPriceEq {capital desiredRoi weeks : ℚ}
    {disableMock : Bool} {env : MockEnv} {rand : ℕ → ℚ} {now : ℤ}
    {acc : List StockSuggestion} {c : Cache} {symName : String} {q : Quote}
    {chains : List DatedChain}
    (hlook : cacheFreshLookup c ⟨symName, capital, desiredRoi, weeks⟩ now
      = none)
    (hcp : quotePrice q = 0) :
    stepSymbol capital desiredRoi weeks disableMock env rand now (acc, c)
      (symName, .quoteOk q chains) = (acc, c) := by
  simp [stepSymbol, hlook, hcp]

lemma stepSymbol_liveEq {capital desiredRoi weeks : ℚ}
    {disableMock : Bool} {env : MockEnv} {rand : ℕ → ℚ} {now : ℤ}
    {acc : List StockSuggestion} {c : Cache} {symName : String} {q : Quote}
    {chains : List DatedChain}
    (hlook : cacheFreshLookup c ⟨symName, capital, desiredRoi, weeks⟩ now
      = none)
    (hcp : quotePrice q ≠ 0) :
    stepSymbol capital desiredRoi weeks disableMock env rand now (acc, c)
      (symName, .quoteOk q chains) =
      (acc ++ screenChains symName capital desiredRoi (quotePrice q) chains,
       cacheSet c ⟨symName, capital, desiredRoi, weeks⟩
         ⟨now, (acc ++ screenChains symName capital desiredRoi (quotePrice q)
           chains).filter (fun s => s.symbol = symName)⟩) := by
  simp [stepSymbol, hlook, hcp]

/-- Generic fold invariant. -/
lemma foldl_inv {α σ : Type _} (step : σ → α → σ) (I : σ → Prop)
    (h : ∀ st a, I st → I (step st a)) :
    ∀ (l : List α) (st : σ), I st → I (l.foldl step st) := by
  intro l
  induction l with
  | nil => intro st hst; exact hst
  | cons a t ih => intro st hst; exact ih (step st a) (h st a hst)

lemma stepSymbol_roiOK {capital desiredRoi weeks : ℚ} {disableMock : Bool}
    {env : MockEnv} {rand : ℕ → ℚ} {now : ℤ}
    {st : List StockSuggestion × Cache} {sym : String × Fetch}
    (hacc : ∀ s ∈ st.1, desiredRoi - 1/100 ≤ s.roi)
    (hcache : CacheRoiOK st.2) :
    (∀ s ∈ (stepSymbol capital desiredRoi weeks disableMock env rand now st
       sym).1, desiredRoi - 1/100 ≤ s.roi) ∧
    CacheRoiOK (stepSymbol capital desiredRoi weeks disableMock env rand now
      st sym).2 := by
  rcases st with ⟨acc, c⟩
  rcases sym with ⟨symName, f⟩
  simp only at hacc hcache
  rcases hlook : cacheFreshLookup c ⟨symName, capital, desiredRoi, weeks⟩ now
    with _ | cached
  · cases f with
    | throws h =>
      cases disableMock with
      | true =>
        rw [stepSymbol_throwsDisabledEq hlook]
        exact ⟨hacc, hcache⟩
      | false =>
        rw [stepSymbol_throwsEq hlook]
        refine ⟨?_, hcache⟩
        intro s hs
        rcases List.mem_append.mp hs with hs | hs
        · exact hacc s hs
        · exact (mockOut_symOut (mem_generateMockSuggestions hs)).2.1
    | quoteOk q chains =>
      by_cases hcp : quotePrice q = 0
      · rw [stepSymbol_noPriceEq hlook hcp]
        exact ⟨hacc, hcache⟩
      · have hall : ∀ s ∈ acc ++ screenChains symName capital desiredRoi
            (quotePrice q) chains, desiredRoi - 1/100 ≤ s.roi := by
          intro s hs
          rcases List.mem_append.mp hs with hs | hs
          · exact hacc s hs
          · exact (liveOut_symOut (mem_screenChains hs)).2.1
        rw [stepSymbol_liveEq hlook hcp]
        refine ⟨hall, ?_⟩
        intro kv hkv
        simp only [cacheSet, List.mem_cons] at hkv
        rcases hkv with hkv | hkv
        · subst hkv
          intro s hs
          exact hall s (List.mem_of_mem_filter hs)
        · exact hcache kv hkv
  · obtain ⟨e, hmem, hsugg, _⟩ := cacheFreshLookup_some hlook
    rw [stepSymbol_hit hlook]
    refine ⟨?_, hcache⟩
    intro s hs
    rcases List.mem_append.mp hs with hs | hs
    · exact hacc s hs
    · exact hcache _ hmem s (by rw [hsugg]; exact hs)

/-- C1 body: after the whole symbol loop the accumulated list and the cache
both respect the desired-return gate. -/
lemma processAllSymbols_roiOK {capital desiredRoi weeks : ℚ}
    {disableMock : Bool} {env : MockEnv} {rand : ℕ → ℚ} {now : ℤ}
    {fetches : List (String × Fetch)} {c0 : Cache}
    (hc0 : CacheRoiOK c0) :
    ∀ s ∈ (processAllSymbols capital desiredRoi weeks disableMock env rand
      now fetches c0).1, desiredRoi - 1/100 ≤ s.roi := by
  have := foldl_inv
    (stepSymbol capital desiredRoi weeks disableMock env rand now)
    (fun st => (∀ s ∈ st.1, desiredRoi - 1/100 ≤ s.roi) ∧ CacheRoiOK st.2)
    (fun st a hst => stepSymbol_roiOK hst.1 hst.2) fetches ([], c0)
    ⟨by intro s hs; simp at hs, hc0⟩
  exact this.1

/-- C1.  For every valid request, every suggestion in the returned
(sorted) list satisfies `roi ≥ desiredRoi - 0.01`: both emission paths gate
on the exact periodic return before rounding it to two decimals, and cached
slices were produced under the same gate (their key carries the same
`desiredRoi`). -/
theorem returned_roi_ge_desired (b : RawBody) (disableMock : Bool)
    (env : MockEnv) (rand : ℕ → ℚ) (now : ℤ) (fetch : String → Fetch)
    (c0 : Cache) (p : Params) (resp : SuggestionResponse) (c1 : Cache)
    (hp : validateRequest b = .ok p)
    (hc0 : ∀ kv ∈ c0, ∀ s ∈ kv.2.suggestions,
      kv.1.desiredRoi - 1/100 ≤ s.roi)
    (hreq : handleRequest b disableMock env rand now fetch c0
      = .ok (resp, c1)) :
    ∀ s ∈ resp.suggestions, p.desiredRoi - 1/100 ≤ s.roi := by
  intro s hs
  simp only [handleRequest, hp] at hreq
  have hresp : resp = assembleResponse
      (processAllSymbols p.capital p.desiredRoi p.expirationWeeks disableMock
        env rand now (p.symbols.map (fun s => (s, fetch s))) c0).1 := by
    cases hreq
    rfl
  rw [hresp] at hs
  simp only [assembleResponse, sortSuggestions] at hs
  have hs2 := List.mem_mergeSort.mp hs
  exact processAllSymbols_roiOK hc0 s hs2

/-- C9.  Every suggestion emitted by a per-symbol iteration — live
screening or synthetic fallback — carries
`breakEven = round2 (strikePrice - premium)` when it is a put and
`breakEven = round2 (currentPrice - premium)` when it is a covered call,
the rounding to two decimals being applied at the point of emission. -/
theorem emitted_breakEven_formula (symbol : String)
    (capital desiredRoi weeks : ℚ) (disableMock : Bool) (env : MockEnv)
    (rand : ℕ → ℚ) (fetch : Fetch) (s : StockSuggestion)
    (hs : s ∈ (processSymbol symbol capital desiredRoi weeks disableMock env
      rand fetch).1) :
    (s.type = .PUT → s.breakEven = round2 (s.strikePrice - s.premium)) ∧
    (s.type = .COVERED_CALL →
      s.breakEven = round2 (s.currentPrice - s.premium)) :=
  ⟨(mem_processSymbol hs).2.2.1, (mem_processSymbol hs).2.2.2⟩

/-- C6, amended.  The live screening path never emits a covered call
whose strike is below the reference price (the route skips
`strike < currentPrice`); the synthetic path derives its call strikes from
1.05x and 1.10x the price rounded to the nearest 0.5, which also stays at
or above the price whenever the effective price is at least 5 (the rounding
can only drop below the price for prices under 5). -/
theorem covered_call_strike_bounds :
    (∀ (symbol : String) (capital desiredRoi cp : ℚ)
       (chains : List DatedChain) (s : StockSuggestion),
       s ∈ screenChains symbol capital desiredRoi cp chains →
       s.type = .COVERED_CALL → s.currentPrice ≤ s.strikePrice) ∧
    (∀ (symbol : String) (capital desiredRoi weeks : ℚ)
       (reference : Option ℚ) (env : MockEnv) (rand : ℕ → ℚ)
       (s : StockSuggestion),
       5 ≤ mockPrice symbol reference →
       s ∈ generateMockSuggestions symbol capital desiredRoi weeks reference
         env rand →
       s.type = .COVERED_CALL → s.currentPrice ≤ s.strikePrice) := by
  constructor
  · intro symbol capital desiredRoi cp chains s hs ht
    rcases (mem_screenChains hs).2.2.2 with ⟨hp, _⟩ | ⟨_, _, hb⟩
    · rw [ht] at hp; cases hp
    · exact hb
  · intro symbol capital desiredRoi weeks reference env rand s hprice hs ht
    obtain ⟨_, hcp, _, hty⟩ := mem_generateMockSuggestions hs
    rcases hty with ⟨hp, _⟩ | ⟨_, _, hstrike⟩
    · rw [ht] at hp; cases hp
    · rw [hcp]
      set p := mockPrice symbol reference with hpdef
      rcases hstrike with h | h
      · have hlt := lt_roundHalf (p * (105/100))
        rw [h]; linarith
      · have hlt := lt_roundHalf (p * (110/100))
        rw [h]; linarith

/-- C8.  The response list is the stable merge sort of the accumulated
suggestions by descending `roi`, hence non-increasing in `roi`; and equal
inputs yield equal outputs. -/
theorem response_sorted_desc_roi (l : List StockSuggestion) :
    List.Sorted (fun a b : StockSuggestion => b.roi ≤ a.roi)
      (assembleResponse l).suggestions ∧
    (∀ l2 : List StockSuggestion, l2 = l →
      assembleResponse l2 = assembleResponse l) := by
  constructor
  · have htrans : ∀ a b c : StockSuggestion,
        (fun a b : StockSuggestion => decide (b.roi ≤ a.roi)) a b = true →
        (fun a b : StockSuggestion => decide (b.roi ≤ a.roi)) b c = true →
        (fun a b : StockSuggestion => decide (b.roi ≤ a.roi)) a c = true := by
      intro a b c h1 h2
      simp only [decide_eq_true_eq] at h1 h2 ⊢
      exact le_trans h2 h1
    have htotal : ∀ a b : StockSuggestion,
        ((fun a b : StockSuggestion => decide (b.roi ≤ a.roi)) a b ||
         (fun a b : StockSuggestion => decide (b.roi ≤ a.roi)) b a) = true := by
      intro a b
      simp only [Bool.or_eq_true, decide_eq_true_eq]
      exact le_total b.roi a.roi
    have h := List.sorted_mergeSort htrans htotal l
    have h2 : (assembleResponse l).suggestions = sortSuggestions l := rfl
    rw [h2]
    exact h.imp (fun hab => of_decide_eq_true hab)
  · intro l2 h
    rw [h]

/-- C4, amended.  The source tag is `"mock"` exactly when some
returned suggestion's contract identifier starts with the synthetic
`"Mock"` marker, and `"live"` otherwise — in particular an empty suggestion
list is tagged `"live"`, and the tag is always one of the two values. -/
theorem source_tag_characterization (l : List StockSuggestion) :
    ((assembleResponse l).source = "mock" ↔
      ∃ s ∈ l, hasMockMarker s = true) ∧
    ((assembleResponse l).source = "mock" ∨
     (assembleResponse l).source = "live") ∧
    (l = [] → (assembleResponse l).source = "live") := by
  have hsrc : (assembleResponse l).source =
      if (sortSuggestions l).any hasMockMarker then "mock" else "live" := rfl
  refine ⟨⟨?_, ?_⟩, ?_, ?_⟩
  · intro h
    rw [hsrc] at h
    by_cases hany : (sortSuggestions l).any hasMockMarker
    · obtain ⟨s, hsmem, hsm⟩ := List.any_eq_true.mp hany
      exact ⟨s, List.mem_mergeSort.mp hsmem, hsm⟩
    · rw [if_neg hany] at h
      exact absurd h (by decide)
  · rintro ⟨s, hmem, hm⟩
    have hany : (sortSuggestions l).any hasMockMarker = true :=
      List.any_eq_true.mpr ⟨s, List.mem_mergeSort.mpr hmem, hm⟩
    rw [hsrc, if_pos hany]
  · rw [hsrc]
    by_cases hany : (sortSuggestions l).any hasMockMarker
    · rw [if_pos hany]; exact Or.inl rfl
    · rw [if_neg hany]; exact Or.inr rfl
  · intro h
    subst h
    rw [hsrc]
    have hnil : sortSuggestions ([] : List StockSuggestion) = [] :=
      List.mergeSort_nil
    rw [hnil]
    rfl

/-- C4, counterexample to the claim as stated.  The claim says an
empty post-filter suggestion list is tagged `"mock"`; the route computes
`some(...)` over the empty list, which is `false`, so the tag is
`"live"`. -/
theorem empty_suggestions_source_live :
    (assembleResponse []).source = "live" ∧ "live" ≠ "mock" := by
  constructor
  · show computeSource (sortSuggestions []) = "live"
    rw [show sortSuggestions ([] : List StockSuggestion) = [] from
      List.mergeSort_nil]
    rfl
  · decide

/-- C10.  Validation characterisation: every error carries HTTP 400;
the request is accepted exactly when the three numeric fields are finite,
the parsed symbol list is non-empty and has at most 20 entries (after
trimming, upper-casing and order-preserving de-duplication); and on
acceptance each finite numeric field is clamped into its bound
(capital into [500, 5000000], desiredRoi into [0, 50], expirationWeeks
into [1, 12]) and processing continues with the clamped values. -/
theorem validator_clamps_and_rejects (b : RawBody) :
    (∀ e, validateRequest b = .error e → e.1 = 400) ∧
    ((∃ p, validateRequest b = .ok p) ↔
      (b.capital ≠ JSNum.nonfinite ∧ b.desiredRoi ≠ JSNum.nonfinite ∧
       b.expirationWeeks ≠ JSNum.nonfinite ∧
       parseSymbols b.whitelist ≠ [] ∧
       (parseSymbols b.whitelist).length ≤ 20)) ∧
    (∀ (cq rq wq : ℚ) (p : Params), b.capital = .fin cq →
      b.desiredRoi = .fin rq → b.expirationWeeks = .fin wq →
      validateRequest b = .ok p →
      p = ⟨min 5000000 (max 500 cq), min 50 (max 0 rq), min 12 (max 1 wq),
           parseSymbols b.whitelist⟩) := by
  rcases b with ⟨cap, roi, wk, wl⟩
  cases cap with
  | nonfinite =>
    refine ⟨?_, ?_, ?_⟩
    · intro e he
      simp only [validateRequest, clampNumber, Except.error.injEq] at he
      rw [← he]
    · simp [validateRequest, clampNumber]
    · intro cq rq wq p hc hr hw hok
      cases hc
  | fin cq0 =>
    cases roi with
    | nonfinite =>
      refine ⟨?_, ?_, ?_⟩
      · intro e he
        simp only [validateRequest, clampNumber, Except.error.injEq] at he
        rw [← he]
      · simp [validateRequest, clampNumber]
      · intro cq rq wq p hc hr hw hok
        cases hr
    | fin rq0 =>
      cases wk with
      | nonfinite =>
        refine ⟨?_, ?_, ?_⟩
        · intro e he
          simp only [validateRequest, clampNumber, Except.error.injEq] at he
          rw [← he]
        · simp [validateRequest, clampNumber]
        · intro cq rq wq p hc hr hw hok
          cases hw
      | fin wq0 =>
        by_cases h0 : (parseSymbols wl).length = 0
        · have hnil : parseSymbols wl = [] := List.length_eq_zero.mp h0
          refine ⟨?_, ?_, ?_⟩
          · intro e he
            simp only [validateRequest, clampNumber, h0, if_pos,
              Except.error.injEq] at he
            rw [← he]
          · simp [validateRequest, clampNumber, h0, hnil]
          · intro cq rq wq p hc hr hw hok
            simp only [validateRequest, clampNumber, h0, if_pos] at hok
            cases hok
        · by_cases h20 : 20 < (parseSymbols wl).length
          · refine ⟨?_, ?_, ?_⟩
            · intro e he
              simp only [validateRequest, clampNumber, h0, h20, if_neg,
                if_pos, if_false, Except.error.injEq] at he
              rw [← he]
            · constructor
              · rintro ⟨p, hp⟩
                simp only [validateRequest, clampNumber, h0, h20, if_neg,
                  if_pos, if_false] at hp
                cases hp
              · rintro ⟨-, -, -, -, hle⟩
                exact absurd h20 (not_lt.mpr hle)
            · intro cq rq wq p hc hr hw hok
              simp only [validateRequest, clampNumber, h0, h20, if_neg,
                if_pos, if_false] at hok
              cases hok
          · refine ⟨?_, ?_, ?_⟩
            · intro e he
              simp only [validateRequest, clampNumber, h0, h20, if_neg,
                if_false] at he
              cases he
            · constructor
              · intro _
                refine ⟨by simp, by simp, by simp, ?_, not_lt.mp h20⟩
                intro hS
                exact h0 (by rw [hS]; rfl)
              · intro _
                refine ⟨⟨min 5000000 (max 500 cq0), min 50 (max 0 rq0),
                  min 12 (max 1 wq0), parseSymbols wl⟩, ?_⟩
                simp [validateRequest, clampNumber, h0, h20]
            · intro cq rq wq p hc hr hw hok
              have hc2 : cq0 = cq := by injection hc
              have hr2 : rq0 = rq := by injection hr
              have hw2 : wq0 = wq := by injection hw
              subst hc2; subst hr2; subst hw2
              simp only [validateRequest, clampNumber, h0, h20, if_neg,
                if_false, Except.ok.injEq] at hok
              exact hok.symm

/-- C2, counterexample to the claim as stated.  A request with finite
capital 100 (below the 500 minimum) is *not* rejected: `clampNumber` clamps
it up to 500 and validation succeeds, so processing continues. -/
theorem capital_below_min_not_rejected :
    validateRequest ⟨.fin 100, .fin 1, .fin 4, "PLTR"⟩
      = .ok ⟨500, 1, 4, ["PLTR"]⟩ := by
  have hs : parseSymbols "PLTR" = ["PLTR"] := rfl
  simp only [validateRequest, clampNumber, hs]
  norm_num [min_def, max_def]

/-- C2, amended.  A request whose capital is any finite number below
500 is accepted with the capital clamped up to 500 (no HTTP 400 and no
abort): the gateway/generator pipeline then runs with the clamped value.
Rejection happens only for non-finite numeric fields or a bad symbol
list. -/
theorem capital_below_min_is_clamped (cq : ℚ) (hlt : cq < 500) :
    validateRequest ⟨.fin cq, .fin 1, .fin 4, "PLTR"⟩
      = .ok ⟨500, 1, 4, ["PLTR"]⟩ := by
  have hs : parseSymbols "PLTR" = ["PLTR"] := rfl
  have hmax : max (500 : ℚ) cq = 500 := max_eq_left (le_of_lt hlt)
  simp only [validateRequest, clampNumber, hs, hmax]
  norm_num [min_def]

/-- Witness for C2's amended theorem at capital 300. -/
theorem capital_below_min_is_clamped_witness :
    (300 : ℚ) < 500 ∧
    validateRequest ⟨.fin 300, .fin 1, .fin 4, "PLTR"⟩
      = .ok ⟨500, 1, 4, ["PLTR"]⟩ :=
  ⟨by norm_num, capital_below_min_is_clamped 300 (by norm_num)⟩

/-! ## Evaluation helpers for concrete scenarios -/

lemma jsRound_eq {x : ℚ} (n : ℤ) (h1 : (n : ℚ) ≤ x + 1/2)
    (h2 : x + 1/2 < (n : ℚ) + 1) : jsRound x = n := by
  rw [jsRound]
  exact Int.floor_eq_iff.mpr ⟨h1, h2⟩

lemma round2_eq {x : ℚ} (n : ℤ) (h1 : (n : ℚ) ≤ x * 100 + 1/2)
    (h2 : x * 100 + 1/2 < (n : ℚ) + 1) : round2 x = (n : ℚ) / 100 := by
  rw [round2, jsRound_eq n h1 h2]

lemma roundHalf_eq {x : ℚ} (n : ℤ) (h1 : (n : ℚ) ≤ x * 2 + 1/2)
    (h2 : x * 2 + 1/2 < (n : ℚ) + 1) : roundHalf x = (n : ℚ) / 2 := by
  rw [roundHalf, jsRound_eq n h1 h2]

lemma mockPutStep_skip {symbol : String} {capital desiredRoi price : ℚ}
    {dateStr : String} {days : ℕ} {rand : ℕ → ℚ}
    {st : List StockSuggestion × ℕ} {strike : ℚ}
    (h : roundHalf strike * 100 > capital) :
    mockPutStep symbol capital desiredRoi price dateStr days rand st strike
      = st := by
  simp [mockPutStep, h]

lemma mockCallStep_skip {symbol : String} {capital desiredRoi price : ℚ}
    {dateStr : String} {days : ℕ} {rand : ℕ → ℚ}
    {st : List StockSuggestion × ℕ} {strike : ℚ}
    (h : price * 100 > capital) :
    mockCallStep symbol capital desiredRoi price dateStr days rand st strike
      = st := by
  simp [mockCallStep, h]

lemma mem_mockCallStep_of_mem {symbol : String}
    {capital desiredRoi price : ℚ} {dateStr : String} {days : ℕ}
    {rand : ℕ → ℚ} {st : List StockSuggestion × ℕ} {strike : ℚ}
    {s : StockSuggestion} (hs : s ∈ st.1) :
    s ∈ (mockCallStep symbol capital desiredRoi price dateStr days rand st
      strike).1 := by
  simp only [mockCallStep]
  split_ifs
  · exact hs
  · exact List.mem_append_left _ hs
  · exact hs

lemma mockCallStep_mem_self {symbol : String}
    {capital desiredRoi price : ℚ} {dateStr : String} {days : ℕ}
    {rand : ℕ → ℚ} {st : List StockSuggestion × ℕ} {strike : ℚ}
    (h1 : ¬(price * 100 > capital))
    (h2 : round2 (price * (1/200 + rand st.2 * (3/200))) / price
        * (30 / (days : ℚ)) * 100 ≥ desiredRoi) :
    ∃ s ∈ (mockCallStep symbol capital desiredRoi price dateStr days rand st
      strike).1, s.type = OptionKind.COVERED_CALL ∧
      s.strikePrice = roundHalf strike ∧ s.currentPrice = price := by
  simp only [mockCallStep, if_neg h1, if_pos h2]
  refine ⟨_, List.mem_append_right _ (List.mem_singleton.mpr rfl),
    rfl, rfl, rfl⟩

/-- In a one-week synthetic run whose covered-call gates pass, a
covered-call suggestion at strike `roundHalf (1.05 * price)` is emitted. -/
lemma generateMock_week1_call_exists (symbol : String)
    (capital desiredRoi : ℚ) (reference : Option ℚ) (env : MockEnv)
    (rand : ℕ → ℚ)
    (hcap : ¬(mockPrice symbol reference * 100 > capital))
    (hroi : ∀ k : ℕ, round2 (mockPrice symbol reference
        * (1/200 + rand k * (3/200))) / mockPrice symbol reference
        * (30 / ((1 * 7 : ℕ) : ℚ)) * 100 ≥ desiredRoi) :
    ∃ s ∈ generateMockSuggestions symbol capital desiredRoi 1 reference env
      rand, s.type = OptionKind.COVERED_CALL ∧
      s.strikePrice = roundHalf (mockPrice symbol reference * (105/100)) ∧
      s.currentPrice = mockPrice symbol reference := by
  have hf : ⌊(1 : ℚ)⌋ = 1 := by norm_num [Int.floor_eq_iff]
  have hw : weekIdxs 1 = [1] := by rw [weekIdxs, hf]; rfl
  simp only [generateMockSuggestions, hw, mockWeek, List.foldl_cons,
    List.foldl_nil]
  obtain ⟨s, hs, hp⟩ := mockCallStep_mem_self hcap (hroi _)
  exact ⟨s, mem_mockCallStep_of_mem hs, hp⟩

/-! ## Concrete scenario inputs -/

/-! ## C3: per-symbol failure handling -/

lemma stepSymbol_extends {capital desiredRoi weeks : ℚ}
    {disableMock : Bool} {env : MockEnv} {rand : ℕ → ℚ} {now : ℤ}
    (st : List StockSuggestion × Cache) (sym : String × Fetch) :
    ∃ t, (stepSymbol capital desiredRoi weeks disableMock env rand now st
      sym).1 = st.1 ++ t := by
  rcases st with ⟨acc, c⟩
  rcases sym with ⟨symName, f⟩
  rcases hlook : cacheFreshLookup c ⟨symName, capital, desiredRoi, weeks⟩ now
    with _ | cached
  · cases f with
    | throws h =>
      cases disableMock with
      | true => exact ⟨[], by rw [stepSymbol_throwsDisabledEq hlook]; simp⟩
      | false => exact ⟨_, by rw [stepSymbol_throwsEq hlook]⟩
    | quoteOk q chains =>
      by_cases hcp : quotePrice q = 0
      · exact ⟨[], by rw [stepSymbol_noPriceEq hlook hcp]; simp⟩
      · exact ⟨_, by rw [stepSymbol_liveEq hlook hcp]⟩
  · exact ⟨cached, by rw [stepSymbol_hit hlook]⟩

lemma foldl_stepSymbol_extends {capital desiredRoi weeks : ℚ}
    {disableMock : Bool} {env : MockEnv} {rand : ℕ → ℚ} {now : ℤ} :
    ∀ (fetches : List (String × Fetch)) (st : List StockSuggestion × Cache),
      ∃ t, (fetches.foldl (stepSymbol capital desiredRoi weeks disableMock
        env rand now) st).1 = st.1 ++ t := by
  intro fetches
  induction fetches with
  | nil => intro st; exact ⟨[], by simp⟩
  | cons a tl ih =>
    intro st
    obtain ⟨t1, ht1⟩ := @stepSymbol_extends capital desiredRoi weeks
      disableMock env rand now st a
    obtain ⟨t2, ht2⟩ := ih (stepSymbol capital desiredRoi weeks disableMock
      env rand now st a)
    exact ⟨t1 ++ t2, by
      rw [List.foldl_cons, ht2, ht1, List.append_assoc]⟩

/-- C3, amended.  A *thrown* gateway error triggers, after a cache
miss and with the fallback not disabled, the synthetic generator seeded
with whatever close price the 7-day history recovery produced; a quote that
yields *no usable reference price* (trade price, bid, ask and previous
close all falsy) instead skips the symbol silently — the generator is not
invoked for it; and in every case the loop only ever appends, so one
symbol's failure never aborts the processing of the remaining symbols. -/
theorem gateway_failure_fallback_behavior :
    (∀ (capital desiredRoi weeks : ℚ) (env : MockEnv) (rand : ℕ → ℚ)
       (now : ℤ) (acc : List StockSuggestion) (c : Cache) (symName : String)
       (h : Option ℚ),
       cacheFreshLookup c ⟨symName, capital, desiredRoi, weeks⟩ now = none →
       stepSymbol capital desiredRoi weeks false env rand now (acc, c)
         (symName, .throws h) =
         (acc ++ generateMockSuggestions symName capital desiredRoi weeks h
           env rand, c)) ∧
    (∀ (capital desiredRoi weeks : ℚ) (disableMock : Bool) (env : MockEnv)
       (rand : ℕ → ℚ) (now : ℤ) (acc : List StockSuggestion) (c : Cache)
       (symName : String) (q : Quote) (chains : List DatedChain),
       cacheFreshLookup c ⟨symName, capital, desiredRoi, weeks⟩ now = none →
       quotePrice q = 0 →
       stepSymbol capital desiredRoi weeks disableMock env rand now (acc, c)
         (symName, .quoteOk q chains) = (acc, c) ∧
       (processSymbol symName capital desiredRoi weeks disableMock env rand
         (.quoteOk q chains)).2 = false) ∧
    (∀ (capital desiredRoi weeks : ℚ) (disableMock : Bool) (env : MockEnv)
       (rand : ℕ → ℚ) (now : ℤ) (fetches : List (String × Fetch))
       (st : List StockSuggestion × Cache),
       ∃ t, (fetches.foldl (stepSymbol capital desiredRoi weeks disableMock
         env rand now) st).1 = st.1 ++ t) := by
  refine ⟨?_, ?_, ?_⟩
  · intro capital desiredRoi weeks env rand now acc c symName h hlook
    exact stepSymbol_throwsEq hlook
  · intro capital desiredRoi weeks disableMock env rand now acc c symName q
      chains hlook hcp
    refine ⟨stepSymbol_noPriceEq hlook hcp, ?_⟩
    simp only [processSymbol, hcp, if_pos]
  · intro capital desiredRoi weeks disableMock env rand now fetches st
    exact foldl_stepSymbol_extends fetches st

/-- C3, counterexample to the claim as stated.  A gateway interaction
in which the quote succeeds but no usable reference price exists (all four
fallback fields falsy) is a live-path failure by the claim's own wording,
yet the route hits `continue` before the `catch` block: the symbol yields
no suggestions and the synthetic generator is *not* invoked (flag
`false`). -/
theorem no_usable_price_skips_without_fallback :
    processSymbol "AAPL" 10000 1 4 false env0 rand0
      (.quoteOk ⟨0, 0, 0, 0⟩ []) = ([], false) := by
  have hcp : quotePrice ⟨0, 0, 0, 0⟩ = 0 := by norm_num [quotePrice, jsOr]
  simp only [processSymbol, hcp, if_pos]

/-- Witness for C3's amended theorem. -/
theorem gateway_failure_fallback_behavior_witness :
    (stepSymbol 500 0 1 false env0 rand0 0 ([], []) ("A", .throws (some 7))
      = ([] ++ generateMockSuggestions "A" 500 0 1 (some 7) env0 rand0,
         [])) ∧
    (stepSymbol 500 0 1 false env0 rand0 0 ([], [])
        ("A", .quoteOk ⟨0, 0, 0, 0⟩ []) = ([], []) ∧
      (processSymbol "A" 500 0 1 false env0 rand0
        (.quoteOk ⟨0, 0, 0, 0⟩ [])).2 = false) ∧
    (∃ t, (([] : List (String × Fetch)).foldl
        (stepSymbol 500 0 1 false env0 rand0 0) ([], [])).1 = [] ++ t) := by
  refine ⟨?_, ?_, ?_⟩
  · exact gateway_failure_fallback_behavior.1 500 0 1 env0 rand0 0 [] [] "A"
      (some 7) rfl
  · exact gateway_failure_fallback_behavior.2.1 500 0 1 false env0 rand0 0
      [] [] "A" ⟨0, 0, 0, 0⟩ [] rfl (by norm_num [quotePrice, jsOr])
  · exact gateway_failure_fallback_behavior.2.2 500 0 1 false env0 rand0 0
      [] ([], [])

/-! ## C7: cache idempotence -/

lemma screenChains_symbolEq {symbol : String} {capital desiredRoi cp : ℚ}
    {chains : List DatedChain} {s : StockSuggestion}
    (hs : s ∈ screenChains symbol capital desiredRoi cp chains) :
    s.symbol = symbol :=
  (mem_screenChains hs).1

lemma cacheFreshLookup_set_fresh {c : Cache} {k : CacheKey} {ts now : ℤ}
    {l : List StockSuggestion} (h : now - ts < CACHE_TTL_MS) :
    cacheFreshLookup (cacheSet c k ⟨ts, l⟩) k now = some l := by
  have hfind : cacheFind (cacheSet c k ⟨ts, l⟩) k = some ⟨ts, l⟩ := by
    simp [cacheFind, cacheSet, List.find?_cons_of_pos]
  simp [cacheFreshLookup, hfind, h]

lemma cacheFreshLookup_set_stale {c : Cache} {k : CacheKey} {ts now : ℤ}
    {l : List StockSuggestion} (h : ¬(now - ts < CACHE_TTL_MS)) :
    cacheFreshLookup (cacheSet c k ⟨ts, l⟩) k now = none := by
  have hfind : cacheFind (cacheSet c k ⟨ts, l⟩) k = some ⟨ts, l⟩ := by
    simp [cacheFind, cacheSet, List.find?_cons_of_pos]
  simp [cacheFreshLookup, hfind, h]

/-- C7.  After a live success for a symbol at time `t1`, the exact
`(symbol, capital, desiredRoi, expirationWeeks)` key maps to that symbol's
suggestion slice; a second identical request at any `t2` with
`t2 - t1 < CACHE_TTL_MS` is served that identical slice from the cache,
with a result that does not depend on the second gateway interaction at
all; and once `t2 - t1 ≥ CACHE_TTL_MS` the entry is treated as absent. -/
theorem cache_hit_idempotent (capital desiredRoi weeks : ℚ)
    (dm1 dm2 : Bool) (env1 env2 : MockEnv) (rand1 rand2 : ℕ → ℚ)
    (symName : String) (q : Quote) (chains : List DatedChain)
    (acc1 acc2 : List StockSuggestion) (c : Cache) (t1 t2 : ℤ)
    (hmiss : cacheFreshLookup c ⟨symName, capital, desiredRoi, weeks⟩ t1
      = none)
    (hcp : quotePrice q ≠ 0)
    (hacc1 : ∀ s ∈ acc1, s.symbol ≠ symName) :
    (stepSymbol capital desiredRoi weeks dm1 env1 rand1 t1 (acc1, c)
        (symName, .quoteOk q chains)).2 =
      cacheSet c ⟨symName, capital, desiredRoi, weeks⟩
        ⟨t1, screenChains symName capital desiredRoi (quotePrice q)
          chains⟩ ∧
    (t2 - t1 < CACHE_TTL_MS →
      ∀ f2 : Fetch,
        stepSymbol capital desiredRoi weeks dm2 env2 rand2 t2
          (acc2, cacheSet c ⟨symName, capital, desiredRoi, weeks⟩
            ⟨t1, screenChains symName capital desiredRoi (quotePrice q)
              chains⟩) (symName, f2) =
        (acc2 ++ screenChains symName capital desiredRoi (quotePrice q)
          chains,
         cacheSet c ⟨symName, capital, desiredRoi, weeks⟩
           ⟨t1, screenChains symName capital desiredRoi (quotePrice q)
             chains⟩)) ∧
    (CACHE_TTL_MS ≤ t2 - t1 →
      cacheFreshLookup (cacheSet c ⟨symName, capital, desiredRoi, weeks⟩
        ⟨t1, screenChains symName capital desiredRoi (quotePrice q) chains⟩)
        ⟨symName, capital, desiredRoi, weeks⟩ t2 = none) := by
  have hfilter : (acc1 ++ screenChains symName capital desiredRoi
      (quotePrice q) chains).filter (fun s => s.symbol = symName) =
      screenChains symName capital desiredRoi (quotePrice q) chains := by
    rw [List.filter_append]
    have h1 : acc1.filter
        (fun s : StockSuggestion => decide (s.symbol = symName)) = [] := by
      rw [List.filter_eq_nil_iff]
      intro a ha
      simpa using hacc1 a ha
    have h2 : (screenChains symName capital desiredRoi (quotePrice q)
        chains).filter
        (fun s : StockSuggestion => decide (s.symbol = symName)) =
        screenChains symName capital desiredRoi (quotePrice q) chains := by
      rw [List.filter_eq_self]
      intro a ha
      simpa using screenChains_symbolEq ha
    rw [h1, h2]
    rfl
  refine ⟨?_, ?_, ?_⟩
  · rw [stepSymbol_liveEq hmiss hcp]
    rw [hfilter]
  · intro hfresh f2
    exact stepSymbol_hit (cacheFreshLookup_set_fresh hfresh)
  · intro hstale
    exact cacheFreshLookup_set_stale (not_lt.mpr hstale)

/-! ## C5: the PLTR fallback scenario -/

/-- With the PLTR table price 170 and capital 10000, every synthetic
candidate fails its capital gate, for any random oracle and calendar. -/
lemma pltr_mock_empty (env : MockEnv) (rand : ℕ → ℚ) :
    generateMockSuggestions "PLTR" 10000 1 4 none env rand = [] := by
  have c1 : roundHalf ((170 : ℚ) * (9/10)) * 100 > 10000 := by
    rw [roundHalf_eq 306 (by norm_num) (by norm_num)]; norm_num
  have c2 : roundHalf ((170 : ℚ) * (95/100)) * 100 > 10000 := by
    rw [roundHalf_eq 323 (by norm_num) (by norm_num)]; norm_num
  have c3 : roundHalf (170 : ℚ) * 100 > 10000 := by
    rw [roundHalf_eq 340 (by norm_num) (by norm_num)]; norm_num
  have ccall : (170 : ℚ) * 100 > 10000 := by norm_num
  have hprice : mockPrice "PLTR" none = 170 := by
    norm_num [mockPrice, stockMap]
  have hweek : ∀ (d : String) (days : ℕ) (k : ℕ),
      mockWeek "PLTR" 10000 1 170 d days rand ([], k) = ([], k) := by
    intro d days k
    simp only [mockWeek, List.foldl_cons, List.foldl_nil]
    rw [mockPutStep_skip c1, mockPutStep_skip c2, mockPutStep_skip c3,
        mockCallStep_skip ccall, mockCallStep_skip ccall]
  have hf : ⌊(4 : ℚ)⌋ = 4 := by norm_num [Int.floor_eq_iff]
  have hw : weekIdxs 4 = [1, 2, 3, 4] := by rw [weekIdxs, hf]; rfl
  simp only [generateMockSuggestions, hprice, hw, List.foldl_cons,
    List.foldl_nil, hweek]

lemma pltr_validate :
    validateRequest ⟨.fin 10000, .fin 1, .fin 4, "PLTR"⟩
      = .ok ⟨10000, 1, 4, ["PLTR"]⟩ := by
  have hs : parseSymbols "PLTR" = ["PLTR"] := rfl
  simp only [validateRequest, clampNumber, hs]
  norm_num [min_def, max_def]

lemma pltr_handle :
    handleRequest ⟨.fin 10000, .fin 1, .fin 4, "PLTR"⟩ false env0 rand0 0
      (fun _ => .throws none) [] = .ok (⟨[], "live", none⟩, []) := by
  have hstep : stepSymbol 10000 1 4 false env0 rand0 0 ([], [])
      ("PLTR", .throws none) = ([], []) := by
    rw [stepSymbol_throwsEq (show cacheFreshLookup []
          ⟨"PLTR", 10000, 1, 4⟩ 0 = none from rfl),
        pltr_mock_empty env0 rand0]
    rfl
  simp only [handleRequest, pltr_validate, processAllSymbols,
    List.map_cons, List.map_nil, List.foldl_cons, List.foldl_nil, hstep]
  simp only [assembleResponse, sortSuggestions, List.mergeSort_nil,
    computeSource, List.any_nil, Bool.false_eq_true, if_false]

/-- C5, counterexample to the claim as stated.  For
capital=10000, desiredRoi=1, expirationWeeks=4, whitelist="PLTR" with the
gateway (and history) unavailable, the response is *not* tagged `"mock"`:
no synthetic candidate survives the capital gates, the suggestion list is
empty, and the route then tags the empty list `"live"`. -/
theorem pltr_mock_scenario_source_live :
    handleRequest ⟨.fin 10000, .fin 1, .fin 4, "PLTR"⟩ false env0 rand0 0
      (fun _ => .throws none) [] = .ok (⟨[], "live", none⟩, []) ∧
    "live" ≠ "mock" :=
  ⟨pltr_handle, by decide⟩

/-- C5, amended.  In that scenario the synthetic generator *is*
invoked (with the table price 170, history having recovered nothing), but
every synthetic put strike (153, 161.5, 170) costs more than the 10000
capital and the covered-call lot (17000) does too, so the generator emits
nothing; the response is the empty list with source `"live"`, and the
strike/identifier assertions of the test hold vacuously. -/
theorem pltr_mock_scenario_empty_response :
    (processSymbol "PLTR" 10000 1 4 false env0 rand0 (.throws none)).2
      = true ∧
    generateMockSuggestions "PLTR" 10000 1 4 none env0 rand0 = [] ∧
    handleRequest ⟨.fin 10000, .fin 1, .fin 4, "PLTR"⟩ false env0 rand0 0
      (fun _ => .throws none) [] = .ok (⟨[], "live", none⟩, []) :=
  ⟨rfl, pltr_mock_empty env0 rand0, pltr_handle⟩

/-! ## C6 counterexample scenario -/

/-- C6, counterexample to the claim as stated.  On the synthetic
fallback path with a recovered reference price of 2.60, the covered-call
strike `1.05 * 2.60 = 2.73` rounds to the nearest 0.5 *down* to 2.5, and
the suggestion passes every gate: a COVERED_CALL with
`strikePrice < currentPrice` is emitted. -/
theorem mock_covered_call_below_price_exists :
    ∃ s ∈ generateMockSuggestions "TEST" 500 0 1 (some (13/5)) env0 rand0,
      s.type = OptionKind.COVERED_CALL ∧
      s.strikePrice < s.currentPrice := by
  have hprice : mockPrice "TEST" (some (13/5)) = 13/5 := by
    norm_num [mockPrice]
  have hcap : ¬(mockPrice "TEST" (some (13/5)) * 100 > 500) := by
    rw [hprice]; norm_num
  have hroi : ∀ k : ℕ, round2 (mockPrice "TEST" (some (13/5))
      * (1/200 + rand0 k * (3/200))) / mockPrice "TEST" (some (13/5))
      * (30 / ((1 * 7 : ℕ) : ℚ)) * 100 ≥ 0 := by
    intro k
    rw [hprice]
    have hr : rand0 k = 1/2 := rfl
    rw [hr, round2_eq 3 (by norm_num) (by norm_num)]
    norm_num
  obtain ⟨s, hs, hty, hstrike, hcp⟩ :=
    generateMock_week1_call_exists "TEST" 500 0 (some (13/5)) env0 rand0
      hcap hroi
  refine ⟨s, hs, hty, ?_⟩
  rw [hstrike, hcp, hprice, roundHalf_eq 5 (by norm_num) (by norm_num)]
  norm_num

/-! ## A concrete live-path scenario (one covered-call suggestion) -/

lemma sampleCall_eval :
    screenCall "A" 10000 0 100 "2026-11-06" 7 ⟨105, 1, 0, "C105"⟩
      = some sampleLiveCC := by
  simp only [screenCall, optionPremium, sampleLiveCC]
  norm_num
  refine ⟨?_, ?_, ?_, ?_⟩
  · exact (round2_eq 429 (by norm_num) (by norm_num)).trans (by norm_num)
  · exact (round2_eq 5214 (by norm_num) (by norm_num)).trans (by norm_num)
  · rw [jsRound_eq 10000 (by norm_num) (by norm_num)]; norm_num
  · exact (round2_eq 9900 (by norm_num) (by norm_num)).trans (by norm_num)

lemma sampleChains_eval :
    screenChains "A" 10000 0 100 sampleChains = [sampleLiveCC] := by
  have hdays : daysToExp (604800000 : ℤ) = 7 := by
    norm_num [daysToExp, Int.ceil_eq_iff]
  simp only [sampleChains, screenChains, List.foldl_cons, List.foldl_nil,
    screenChain, hdays, List.filterMap_cons, List.filterMap_nil,
    sampleCall_eval]
  rfl

lemma sampleLive_processSymbol :
    processSymbol "A" 10000 0 1 false env0 rand0
      (.quoteOk ⟨100, 0, 0, 0⟩ sampleChains) = ([sampleLiveCC], false) := by
  have hq : quotePrice ⟨100, 0, 0, 0⟩ = 100 := by norm_num [quotePrice, jsOr]
  simp only [processSymbol, hq]
  rw [if_neg (by norm_num : ¬((100 : ℚ) = 0)), sampleChains_eval]

lemma sampleLive_validate :
    validateRequest ⟨.fin 10000, .fin 0, .fin 1, "A"⟩
      = .ok ⟨10000, 0, 1, ["A"]⟩ := by
  have hs : parseSymbols "A" = ["A"] := rfl
  simp only [validateRequest, clampNumber, hs]
  norm_num [min_def, max_def]

lemma sampleLive_handle :
    handleRequest ⟨.fin 10000, .fin 0, .fin 1, "A"⟩ false env0 rand0 0
      (fun _ => .quoteOk ⟨100, 0, 0, 0⟩ sampleChains) [] =
      .ok (⟨[sampleLiveCC], "live", none⟩,
           [(⟨"A", 10000, 0, 1⟩, ⟨0, [sampleLiveCC]⟩)]) := by
  have hne : quotePrice ⟨100, 0, 0, 0⟩ ≠ 0 := by norm_num [quotePrice, jsOr]
  have hq : quotePrice ⟨100, 0, 0, 0⟩ = 100 := by norm_num [quotePrice, jsOr]
  have hstep : stepSymbol 10000 0 1 false env0 rand0 0 ([], [])
      ("A", .quoteOk ⟨100, 0, 0, 0⟩ sampleChains)
      = ([sampleLiveCC], [(⟨"A", 10000, 0, 1⟩, ⟨0, [sampleLiveCC]⟩)]) := by
    rw [stepSymbol_liveEq
      (show cacheFreshLookup [] ⟨"A", 10000, 0, 1⟩ 0 = none from rfl) hne]
    rw [hq, sampleChains_eval]
    rfl
  have hmarker : hasMockMarker sampleLiveCC = false := rfl
  simp only [handleRequest, sampleLive_validate, processAllSymbols,
    List.map_cons, List.map_nil, List.foldl_cons, List.foldl_nil, hstep]
  simp only [assembleResponse, sortSuggestions, List.mergeSort_singleton,
    computeSource, List.any_cons, List.any_nil, hmarker, Bool.or_false,
    Bool.false_eq_true, if_false]

/-! ## Witnesses -/

/-- Witness for C1 at the live sample. -/
theorem returned_roi_ge_desired_witness :
    (0 : ℚ) - 1/100 ≤ sampleLiveCC.roi :=
  returned_roi_ge_desired ⟨.fin 10000, .fin 0, .fin 1, "A"⟩ false env0 rand0
    0 (fun _ => .quoteOk ⟨100, 0, 0, 0⟩ sampleChains) [] ⟨10000, 0, 1, ["A"]⟩
    ⟨[sampleLiveCC], "live", none⟩
    [(⟨"A", 10000, 0, 1⟩, ⟨0, [sampleLiveCC]⟩)]
    sampleLive_validate (by simp) sampleLive_handle sampleLiveCC
    (List.mem_singleton.mpr rfl)

/-- Witness for C9 at the live sample. -/
theorem emitted_breakEven_formula_witness :
    (sampleLiveCC.type = OptionKind.PUT →
      sampleLiveCC.breakEven
        = round2 (sampleLiveCC.strikePrice - sampleLiveCC.premium)) ∧
    (sampleLiveCC.type = OptionKind.COVERED_CALL →
      sampleLiveCC.breakEven
        = round2 (sampleLiveCC.currentPrice - sampleLiveCC.premium)) :=
  emitted_breakEven_formula "A" 10000 0 1 false env0 rand0
    (.quoteOk ⟨100, 0, 0, 0⟩ sampleChains) sampleLiveCC
    (by rw [sampleLive_processSymbol]; exact List.mem_singleton.mpr rfl)

/-- Witness for C8 at the live sample. -/
theorem response_sorted_desc_roi_witness :
    List.Sorted (fun a b : StockSuggestion => b.roi ≤ a.roi)
      (assembleResponse [sampleLiveCC]).suggestions ∧
    assembleResponse [sampleLiveCC] = assembleResponse [sampleLiveCC] :=
  ⟨(response_sorted_desc_roi [sampleLiveCC]).1,
   (response_sorted_desc_roi [sampleLiveCC]).2 [sampleLiveCC] rfl⟩

/-- Witness for C6's amended theorem: a live covered call at strike 105
above price 100, and a synthetic covered call at the default price 100. -/
theorem covered_call_strike_bounds_witness :
    sampleLiveCC.currentPrice ≤ sampleLiveCC.strikePrice ∧
    (∃ s ∈ generateMockSuggestions "ZZZ" 100000 0 1 none env0 rand0,
      s.type = OptionKind.COVERED_CALL ∧
      s.currentPrice ≤ s.strikePrice) := by
  have hprice : mockPrice "ZZZ" none = 100 := rfl
  constructor
  · have hmem : sampleLiveCC ∈ screenChains "A" 10000 0 100 sampleChains := by
      rw [sampleChains_eval]
      exact List.mem_singleton.mpr rfl
    exact covered_call_strike_bounds.1 "A" 10000 0 100 sampleChains
      sampleLiveCC hmem rfl
  · have hcap : ¬(mockPrice "ZZZ" none * 100 > 100000) := by
      rw [hprice]; norm_num
    have hroi : ∀ k : ℕ, round2 (mockPrice "ZZZ" none
        * (1/200 + rand0 k * (3/200))) / mockPrice "ZZZ" none
        * (30 / ((1 * 7 : ℕ) : ℚ)) * 100 ≥ 0 := by
      intro k
      rw [hprice]
      have hr : rand0 k = 1/2 := rfl
      rw [hr, round2_eq 125 (by norm_num) (by norm_num)]
      norm_num
    obtain ⟨s, hs, hty, _, _⟩ :=
      generateMock_week1_call_exists "ZZZ" 100000 0 none env0 rand0 hcap hroi
    exact ⟨s, hs, hty, covered_call_strike_bounds.2 "ZZZ" 100000 0 1 none
      env0 rand0 s (by rw [hprice]; norm_num) hs hty⟩

/-- Witness for C7 at a minimal live success followed by a hit and by a
stale read. -/
theorem cache_hit_idempotent_witness :
    ((stepSymbol 1000 0 1 false env0 rand0 0 ([], ([] : Cache))
        ("B", .quoteOk ⟨10, 0, 0, 0⟩ [])).2 =
      cacheSet [] ⟨"B", 1000, 0, 1⟩
        ⟨0, screenChains "B" 1000 0 (quotePrice ⟨10, 0, 0, 0⟩) []⟩) ∧
    (stepSymbol 1000 0 1 false env0 rand0 1
        ([], cacheSet [] ⟨"B", 1000, 0, 1⟩
          ⟨0, screenChains "B" 1000 0 (quotePrice ⟨10, 0, 0, 0⟩) []⟩)
        ("B", .throws none) =
      ([] ++ screenChains "B" 1000 0 (quotePrice ⟨10, 0, 0, 0⟩) [],
       cacheSet [] ⟨"B", 1000, 0, 1⟩
         ⟨0, screenChains "B" 1000 0 (quotePrice ⟨10, 0, 0, 0⟩) []⟩)) ∧
    (cacheFreshLookup (cacheSet [] ⟨"B", 1000, 0, 1⟩
        ⟨0, screenChains "B" 1000 0 (quotePrice ⟨10, 0, 0, 0⟩) []⟩)
      ⟨"B", 1000, 0, 1⟩ CACHE_TTL_MS = none) := by
  have hne : quotePrice ⟨10, 0, 0, 0⟩ ≠ 0 := by norm_num [quotePrice, jsOr]
  refine ⟨?_, ?_, ?_⟩
  · exact (cache_hit_idempotent 1000 0 1 false false env0 env0 rand0 rand0
      "B" ⟨10, 0, 0, 0⟩ [] [] [] [] 0 1 rfl hne (by simp)).1
  · exact (cache_hit_idempotent 1000 0 1 false false env0 env0 rand0 rand0
      "B" ⟨10, 0, 0, 0⟩ [] [] [] [] 0 1 rfl hne (by simp)).2.1
      (by norm_num [CACHE_TTL_MS]) (.throws none)
  · exact (cache_hit_idempotent 1000 0 1 false false env0 env0 rand0 rand0
      "B" ⟨10, 0, 0, 0⟩ [] [] [] [] 0 CACHE_TTL_MS rfl hne (by simp)).2.2
      (by norm_num)

/-- Witness for C10: over-range finite fields are clamped and a messy
whitelist normalises to one symbol. -/
theorem validator_clamps_and_rejects_witness :
    (⟨5000000, 50, 1, ["A"]⟩ : Params) =
      ⟨min 5000000 (max 500 6000000), min 50 (max 0 60), min 12 (max 1 0),
       parseSymbols " a , A "⟩ := by
  have hs : parseSymbols " a , A " = ["A"] := rfl
  have hok : validateRequest ⟨.fin 6000000, .fin 60, .fin 0, " a , A "⟩
      = .ok ⟨5000000, 50, 1, ["A"]⟩ := by
    simp only [validateRequest, clampNumber, hs]
    norm_num [min_def, max_def]
  exact (validator_clamps_and_rejects
    ⟨.fin 6000000, .fin 60, .fin 0, " a , A "⟩).2.2 6000000 60 0
    ⟨5000000, 50, 1, ["A"]⟩ rfl rfl rfl hok

/-- Witness for C4's amended theorem: the empty list is tagged live, and
the tag of a live-only response is one of the two values. -/
theorem source_tag_characterization_witness :
    (assembleResponse []).source = "live" ∧
    ((assembleResponse [sampleLiveCC]).source = "mock" ∨
     (assembleResponse [sampleLiveCC]).source = "live") :=
  ⟨(source_tag_characterization []).2.2 rfl,
   (source_tag_characterization [sampleLiveCC]).2.1⟩

end PassiveIncome
